import Mathlib

/-
Formal model of `packages/expo-router/src/typed-routes/generate.ts`.

The TypeScript source is embedded shallowly: JavaScript strings are modelled
as Lean `String` (lists of characters), the three regular expressions
`CATCH_ALL`, `SLUG` and `GROUP` are modelled by explicit matching functions
with the exact lazy-quantifier semantics of the JavaScript engine, and
`String.prototype.replaceAll` with a global regex is modelled by a
left-to-right scanner.  `Set` and `Map` are modelled by insertion-ordered
lists with the corresponding deduplication / overwrite behaviour.
-/

set_option maxRecDepth 8192

/-- Character class of the JavaScript regex dot `.`: any character except a
line terminator. -/
def jsDot (c : Char) : Bool :=
  !(c == '\n' || c == '\r' || c == Char.ofNat 0x2028 || c == Char.ofNat 0x2029)

/-- Split a character list at every occurrence of a separator character,
exactly as the JavaScript single-character `String.prototype.split` does
(consecutive separators yield empty pieces, the empty string yields one
empty piece). -/
def splitOnChar (sep : Char) : List Char → List (List Char)
  | [] => [[]]
  | c :: rest =>
    if c = sep then [] :: splitOnChar sep rest
    else
      match splitOnChar sep rest with
      | [] => [[c]]
      | h :: t => (c :: h) :: t

/-- JavaScript `String.prototype.split` with a one-character separator. -/
def jsSplit (sep : Char) (s : String) : List String :=
  (splitOnChar sep s.data).map String.mk

/-- JavaScript `String.prototype.startsWith`. -/
def jsStartsWith (s pre : String) : Bool :=
  pre.data.isPrefixOf s.data

/-- JavaScript `String.prototype.endsWith`. -/
def jsEndsWith (s suf : String) : Bool :=
  suf.data.isSuffixOf s.data

/-- Drop the first `n` characters of a string (`String.prototype.slice(n)`). -/
def strDrop (s : String) (n : Nat) : String :=
  String.mk (s.data.drop n)

/-- Drop the last `n` characters of a string (`String.prototype.slice(0, -n)`). -/
def strDropRight (s : String) (n : Nat) : String :=
  String.mk (s.data.take (s.data.length - n))

/-- Join character lists with a separator, as `Array.prototype.join` does. -/
def joinSepL (sep : List Char) : List (List Char) → List Char
  | [] => []
  | [x] => x
  | x :: y :: t => x ++ sep ++ joinSepL sep (y :: t)

/-- Join strings with a separator, as `Array.prototype.join` does. -/
def joinSep (sep : String) (l : List String) : String :=
  String.mk (joinSepL sep.data (l.map String.data))

/-- Number of occurrences of a pattern in a character list (all start
positions counted). -/
def countOccsL (pat : List Char) : List Char → Nat
  | [] => if pat.isPrefixOf ([] : List Char) then 1 else 0
  | c :: rest => (if pat.isPrefixOf (c :: rest) then 1 else 0) + countOccsL pat rest

/-- Number of occurrences of a pattern inside a string. -/
def countOccs (pat s : String) : Nat :=
  countOccsL pat.data s.data

/-- Scan for the first occurrence of a closing character; every character
before it must be matched by the regex dot.  Models the lazy tail
`.*?c` of the three regexes of the source. -/
def findClose (close : Char) : List Char → Option (List Char × List Char)
  | [] => none
  | c :: rest =>
    if c = close then some ([], rest)
    else if jsDot c = true then
      match findClose close rest with
      | some p => some (c :: p.1, p.2)
      | none => none
    else none

/-- Lazy `.+?c`: at least one dot-matched character, then the closest
closing character. -/
def lazyPlusClose (close : Char) : List Char → Option (List Char × List Char)
  | [] => none
  | c :: rest =>
    if jsDot c = true then
      match findClose close rest with
      | some p => some (c :: p.1, p.2)
      | none => none
    else none

/-- The `^\(.*?\)` alternative of the source regex
`GROUP = /(?:^|\/)\(.*?\)/g`, applicable only at position 0. -/
def caretBranch (isStart : Bool) (s : List Char) : Option (List Char × List Char) :=
  if isStart = true then
    match s with
    | [] => none
    | c :: t =>
      if c = '(' then (findClose ')' t).map (fun p => (c :: (p.1 ++ [')']), p.2))
      else none
  else none

/-- The `\/\(.*?\)` alternative of the source regex `GROUP`. -/
def slashBranch (s : List Char) : Option (List Char × List Char) :=
  match s with
  | c1 :: c2 :: t =>
    if c1 = '/' ∧ c2 = '(' then
      (findClose ')' t).map (fun p => (c1 :: c2 :: (p.1 ++ [')']), p.2))
    else none
  | _ => none

/-- Match of the source regex `GROUP = /(?:^|\/)\(.*?\)/g` at the current
position; returns the matched text and the remainder of the input. -/
def matchGroupHere (isStart : Bool) (s : List Char) : Option (List Char × List Char) :=
  match caretBranch isStart s with
  | some p => some p
  | none => slashBranch s

/-- Match of the source regex `CATCH_ALL = /\[\.\.\..+?\]/g` at the current
position. -/
def matchCatchAllHere (_isStart : Bool) (s : List Char) : Option (List Char × List Char) :=
  match s with
  | c1 :: c2 :: c3 :: c4 :: t =>
    if c1 = '[' ∧ c2 = '.' ∧ c3 = '.' ∧ c4 = '.' then
      (lazyPlusClose ']' t).map (fun p => (c1 :: c2 :: c3 :: c4 :: (p.1 ++ [']']), p.2))
    else none
  | _ => none

/-- Match of the source regex `SLUG = /\[.+?\]/g` at the current position. -/
def matchSlugHere (_isStart : Bool) (s : List Char) : Option (List Char × List Char) :=
  match s with
  | [] => none
  | c :: t =>
    if c = '[' then (lazyPlusClose ']' t).map (fun p => (c :: (p.1 ++ [']']), p.2))
    else none

/-- Global `String.prototype.replaceAll` with one of the regexes above: scan
left to right, at each position try the matcher, replace a match by the
image of the replacer `f` and resume after it.  The fuel argument only
bounds the recursion; one unit is spent per position and every match
consumes at least one character, so fuel equal to the input length is
always sufficient. -/
def replaceScan (m : Bool → List Char → Option (List Char × List Char))
    (f : List Char → List Char) : Nat → Bool → List Char → List Char
  | 0, _, s => s
  | _ + 1, _, [] => []
  | n + 1, isStart, c :: rest =>
    match m isStart (c :: rest) with
    | some p => f p.1 ++ replaceScan m f n false p.2
    | none => c :: replaceScan m f n false rest

/-- Does `GROUP` match anywhere in the input (`contextKey.match(GROUP) !== null`)? -/
def hasGroupMatch : Bool → List Char → Bool
  | _, [] => false
  | isStart, c :: rest => (matchGroupHere isStart (c :: rest)).isSome || hasGroupMatch false rest

/-- String-level wrapper: `key.match(GROUP) !== null`. -/
def hasGroup (s : String) : Bool :=
  hasGroupMatch true s.data

/-- String-level wrapper: `key.replaceAll(GROUP, f)`. -/
def replaceAllByGroup (f : List Char → List Char) (s : String) : String :=
  String.mk (replaceScan matchGroupHere f s.data.length true s.data)

/-- The `urlParams` template-literal suffix of the source. -/
def urlParams : String :=
  "$\x7b`?$\x7bstring\x7d` | `#$\x7bstring\x7d` | \x27\x27\x7d"

/-- The text between the first two and the last character of a `GROUP` match:
`match.slice(2, -1)` of the source. -/
def groupInnerL (m : List Char) : List Char :=
  let d := m.drop 2
  d.take (d.length - 1)

/-- String-level `match.slice(2, -1)`. -/
def groupMatchInner (m : String) : String :=
  String.mk (groupInnerL m.data)

/-- Render a group's inner label text as a template-literal union: the body
of the replacer callback of `contextKeyToType` after the length test. -/
def groupRender (partialTypedGroups : Bool) (groups : List Char) : List Char :=
  let groupsAsType := (splitOnChar ',' groups).map
    (fun group => '\x27' :: '/' :: '(' :: (group ++ [')', '\x27']))
  let groupsAsType :=
    if partialTypedGroups = true then groupsAsType ++ [['\x27', '\x27']] else groupsAsType
  '$' :: '\x7b' :: (joinSepL [' ', '|', ' '] groupsAsType ++ ['\x7d'])

/-- The replacer callback passed to `replaceAll(GROUP, ...)` in
`contextKeyToType` (lines 207-222 of the source). -/
def groupToTypeL (partialTypedGroups : Bool) (m : List Char) : List Char :=
  if 1 < (groupInnerL m).length ∨ partialTypedGroups = true then
    groupRender partialTypedGroups (groupInnerL m)
  else m

/-- String-level wrapper of the group replacer callback. -/
def groupToType (partialTypedGroups : Bool) (m : String) : String :=
  String.mk (groupToTypeL partialTypedGroups m.data)

/-- The pattern synthesizer `contextKeyToType` of the source (lines 201-236). -/
def contextKeyToType (contextKey : String) (partialTypedGroups : Bool) : String :=
  if hasGroup contextKey = false then
    "`" ++ contextKey ++ "`"
  else
    let typeWithGroups := replaceAllByGroup (groupToTypeL partialTypedGroups) contextKey
    let withoutGroups0 := replaceAllByGroup (fun _ => []) contextKey
    let withoutGroups1 := if withoutGroups0 = "" then "/" else withoutGroups0
    let typeWithoutGroups :=
      if jsStartsWith withoutGroups1 urlParams = true then "/" ++ withoutGroups1
      else withoutGroups1
    "`" ++ typeWithGroups ++ "` | `" ++ typeWithoutGroups ++ "`"

/-- Replacement text for a catch-all segment in a dynamic-route bare string. -/
def catchAllPlaceholder : String := "$\x7bstring\x7d"

/-- Replacement text for a single-parameter segment in a dynamic-route bare
string. -/
def slugPlaceholder : String := "$\x7bRouter.SingleRoutePart<T>\x7d"

/-- Lines 87-89 of the source: rewrite every `CATCH_ALL` match and then every
`SLUG` match of a dynamic-route template into its placeholder. -/
def rewriteDynamicSegments (t : String) : String :=
  let afterCatchAll :=
    replaceScan matchCatchAllHere (fun _ => catchAllPlaceholder.data) t.data.length true t.data
  String.mk
    (replaceScan matchSlugHere (fun _ => slugPlaceholder.data) afterCatchAll.length true afterCatchAll)

/-- A node of the externally built route tree.  Modelled from the spec: the
`RouteNode` type comes from the router module outside this source file; the
classifier reads its `type`, `route`, `contextKey`, `generated` and
`dynamic` fields (the truthiness of `dynamic` is all that is consumed) and
recurses through `children`. -/
inductive RouteNode : Type where
  | mk (type route contextKey : String) (generated dynamic : Bool)
      (children : List RouteNode)

def RouteNode.type : RouteNode → String
  | .mk t _ _ _ _ _ => t

def RouteNode.route : RouteNode → String
  | .mk _ r _ _ _ _ => r

def RouteNode.contextKey : RouteNode → String
  | .mk _ _ c _ _ _ => c

def RouteNode.generated : RouteNode → Bool
  | .mk _ _ _ g _ _ => g

def RouteNode.dynamic : RouteNode → Bool
  | .mk _ _ _ _ d _ => d

def RouteNode.children : RouteNode → List RouteNode
  | .mk _ _ _ _ _ ch => ch

mutual

/-- All nodes of a subtree, the subtree's root first. -/
def allNodesGo : RouteNode → List RouteNode
  | RouteNode.mk t r c g d ch => RouteNode.mk t r c g d ch :: allNodesList ch

/-- All nodes of a forest. -/
def allNodesList : List RouteNode → List RouteNode
  | [] => []
  | n :: ns => allNodesGo n ++ allNodesList ns

end

/-- Modelled from the spec: `removeSupportedExtensions` lives in the matchers
module outside this source file; the spec says it strips a supported source
file extension from the raw key, turning `./index.tsx` into `./index`. -/
def removeSupportedExtensions (name : String) : String :=
  if jsEndsWith name ".tsx" = true then strDropRight name 4
  else if jsEndsWith name ".jsx" = true then strDropRight name 4
  else if jsEndsWith name ".ts" = true then strDropRight name 3
  else if jsEndsWith name ".js" = true then strDropRight name 3
  else name

/-- Key normalization of `groupRouteNodes` (lines 157-176 of the source):
generated nodes use `route` directly, file nodes clean `contextKey`; then
coerce empty to `/`, ensure a leading `/` and normalize backslashes. -/
def deriveRouteKey (route contextKey : String) (generated : Bool) : String :=
  let base :=
    if generated = true then route
    else
      let k := removeSupportedExtensions contextKey
      let k := if jsEndsWith k "/index" = true then strDropRight k 6 else k
      if jsStartsWith k "." = true then strDrop k 1 else k
  let base := if base = "" then "/" else base
  let base := if jsStartsWith base "/" = true then base else "/" ++ base
  String.mk (base.data.map (fun c => if c = '\\' then '/' else c))

/-- The normalized key a route node is classified under. -/
def routeKeyOf (n : RouteNode) : String :=
  deriveRouteKey n.route n.contextKey n.generated

/-- Parameter-name extraction of `groupRouteNodes` (lines 181-189 of the
source): split the key on `/`, keep the fully bracket-delimited segments,
strip the outer brackets. -/
def extractParams (routeKey : String) : List String :=
  ((jsSplit '/' routeKey).filter
      (fun segment => jsStartsWith segment "[" && jsEndsWith segment "]")).map
    (fun segment => strDropRight (strDrop segment 1) 1)

/-- The grouped accumulator of `groupRouteNodes`: a JavaScript `Set` of
static keys and a `Map` from dynamic keys to parameter names, both modelled
as insertion-ordered lists. -/
structure GroupedContextKeys where
  static : List String
  dynamic : List (String × List String)

/-- The default (empty) accumulator. -/
def emptyGrouped : GroupedContextKeys :=
  { static := [], dynamic := [] }

/-- JavaScript `Set.prototype.add`: append unless present. -/
def setAdd (s : List String) (k : String) : List String :=
  if s.contains k then s else s ++ [k]

/-- JavaScript `Map.prototype.set`: overwrite in place when the key exists,
append otherwise. -/
def mapSet (m : List (String × List String)) (k : String) (v : List String) :
    List (String × List String) :=
  if m.any (fun p => p.1 == k) then m.map (fun p => if p.1 == k then (k, v) else p)
  else m ++ [(k, v)]

mutual

/-- The recursive body of `groupRouteNodes` (lines 133-199 of the source)
applied to a non-null node. -/
def groupRouteNodesGo : RouteNode → GroupedContextKeys → GroupedContextKeys
  | RouteNode.mk ty route contextKey generated dyn children, acc =>
    if ty ≠ "route" then
      if route = "" then groupRouteNodesList children acc else acc
    else
      let routeKey := deriveRouteKey route contextKey generated
      let acc2 :=
        if dyn = true then
          { acc with dynamic := mapSet acc.dynamic routeKey (extractParams routeKey) }
        else
          { acc with static := setAdd acc.static routeKey }
      groupRouteNodesList children acc2

/-- The `for (const child of routeNode.children)` loops of the source. -/
def groupRouteNodesList : List RouteNode → GroupedContextKeys → GroupedContextKeys
  | [], acc => acc
  | n :: ns, acc => groupRouteNodesList ns (groupRouteNodesGo n acc)

end

/-- `groupRouteNodes` of the source: a null tree leaves the accumulator
untouched. -/
def groupRouteNodes : Option RouteNode → GroupedContextKeys → GroupedContextKeys
  | none, acc => acc
  | some n, acc => groupRouteNodesGo n acc

/-- Options of `getTypedRoutesDeclarationFile`. -/
structure GetTypedRoutesDeclarationFileOptions where
  partialTypedGroups : Bool := false
  testIgnoreComments : Bool := false

/-- The two always-present bare generic path kinds (line 44 of the source). -/
def staticSeedStrings : List String :=
  ["Router.RelativePathString", "Router.ExternalPathString"]

/-- The two always-present generic input-params object forms (lines 45-48). -/
def staticSeedInputObjects : List String :=
  ["\x7b pathname: Router.RelativePathString, params?: Router.UnknownInputParams \x7d",
   "\x7b pathname: Router.ExternalPathString, params?: Router.UnknownInputParams \x7d"]

/-- The two always-present generic output-params object forms (lines 49-52). -/
def staticSeedOutputObjects : List String :=
  ["\x7b pathname: Router.RelativePathString, params?: Router.UnknownOutputParams \x7d",
   "\x7b pathname: Router.ExternalPathString, params?: Router.UnknownOutputParams \x7d"]

/-- Line 55 of the source: the bare-string pattern of a static key, with the
`urlParams` suffix appended before synthesis. -/
def staticRouteStringEntry (partialTypedGroups : Bool) (key : String) : String :=
  contextKeyToType (key ++ urlParams) partialTypedGroups

/-- Lines 56-58 of the source: the input-params object form of a static key. -/
def staticRouteInputObjectEntry (partialTypedGroups : Bool) (key : String) : String :=
  "\x7b pathname: " ++ contextKeyToType key partialTypedGroups ++
    "; params?: Router.UnknownInputParams; \x7d"

/-- Lines 59-61 of the source: the output-params object form of a static key. -/
def staticRouteOutputObjectEntry (partialTypedGroups : Bool) (key : String) : String :=
  "\x7b pathname: " ++ contextKeyToType key partialTypedGroups ++
    "; params?: Router.UnknownOutputParams; \x7d"

/-- Lines 69-75 of the source: one input-params field per parameter name. -/
def inputParamField (param : String) : String :=
  let key := if jsStartsWith param "..." = true then strDrop param 3 else param
  let value :=
    if jsStartsWith param "..." = true then "(string | number)[]" else "string | number"
  key ++ ": " ++ value ++ ";"

/-- Lines 77-83 of the source: one output-params field per parameter name. -/
def outputParamField (param : String) : String :=
  let key := if jsStartsWith param "..." = true then strDrop param 3 else param
  let value := if jsStartsWith param "..." = true then "string[]" else "string"
  key ++ ": " ++ value ++ ";"

/-- Lines 85-92 of the source: the bare-string pattern of a dynamic key,
synthesized from the template with its dynamic segments rewritten to
placeholders (and no `urlParams` suffix). -/
def dynamicRouteStringEntry (partialTypedGroups : Bool) (template : String) : String :=
  contextKeyToType (rewriteDynamicSegments template) partialTypedGroups

/-- Lines 94-96 of the source: the input-params object form of a dynamic key. -/
def dynamicRouteInputObjectEntry (partialTypedGroups : Bool) (template : String)
    (paramsNames : List String) : String :=
  "\x7b pathname: " ++ contextKeyToType template partialTypedGroups ++
    ", params: Router.UnknownInputParams & \x7b " ++
    joinSep "" (paramsNames.map inputParamField) ++ " \x7d \x7d"

/-- Lines 97-99 of the source: the output-params object form of a dynamic key. -/
def dynamicRouteOutputObjectEntry (partialTypedGroups : Bool) (template : String)
    (paramsNames : List String) : String :=
  "\x7b pathname: " ++ contextKeyToType template partialTypedGroups ++
    ", params: Router.UnknownOutputParams & \x7b " ++
    joinSep "" (paramsNames.map outputParamField) ++ " \x7d \x7d"

/-- The diagnostic-suppression marker inserted in test mode (line 113). -/
def tsIgnoreComment : String :=
  "// @ts-ignore-error -- During tests we need to ignore the \"duplicate\" declaration error, as multiple fixture declare types \n      "

/-- The fixed wrapper document of lines 116-130 of the source. -/
def renderDeclarationFile (tsExpectError hrefInputParams hrefOutputParams href : String) :
    String :=
  "/* eslint-disable */\nimport * as Router from \x27expo-router\x27;\n\nexport * from \x27expo-router\x27;\n\ndeclare module \x27expo-router\x27 \x7b\n  export namespace ExpoRouter \x7b\n    export interface __routes<T extends string | object = string> \x7b\n      " ++
    tsExpectError ++ "hrefInputParams: " ++ hrefInputParams ++ ";\n      " ++
    tsExpectError ++ "hrefOutputParams: " ++ hrefOutputParams ++ ";\n      " ++
    tsExpectError ++ "href: " ++ href ++ ";\n    \x7d\n  \x7d\n\x7d\n"

/-- The top-level generator `getTypedRoutesDeclarationFile` (lines 20-131).
Modelled from the spec at its boundary: the external tree builder
`getRoutes` may throw (the source catches and keeps `routeNode = null`) or
produce a tree; its outcome is the `routeNode` argument, `none` standing
for both the throwing and the null-returning builder. -/
def getTypedRoutesDeclarationFile (routeNode : Option RouteNode)
    (opts : GetTypedRoutesDeclarationFileOptions) : String :=
  let groupedNodes := groupRouteNodes routeNode emptyGrouped
  let staticRoutesStrings :=
    staticSeedStrings ++ groupedNodes.static.map (staticRouteStringEntry opts.partialTypedGroups)
  let staticRouteInputObjects :=
    staticSeedInputObjects ++
      groupedNodes.static.map (staticRouteInputObjectEntry opts.partialTypedGroups)
  let staticRouteOutputObjects :=
    staticSeedOutputObjects ++
      groupedNodes.static.map (staticRouteOutputObjectEntry opts.partialTypedGroups)
  let dynamicRouteStrings :=
    groupedNodes.dynamic.map (fun p => dynamicRouteStringEntry opts.partialTypedGroups p.1)
  let dynamicRouteInputObjects :=
    groupedNodes.dynamic.map
      (fun p => dynamicRouteInputObjectEntry opts.partialTypedGroups p.1 p.2)
  let dynamicRouteOutputObjects :=
    groupedNodes.dynamic.map
      (fun p => dynamicRouteOutputObjectEntry opts.partialTypedGroups p.1 p.2)
  let href :=
    joinSep " | "
      (staticRoutesStrings ++ staticRouteInputObjects ++ dynamicRouteStrings ++
        dynamicRouteInputObjects)
  let hrefInputParams := joinSep " | " (staticRouteInputObjects ++ dynamicRouteInputObjects)
  let hrefOutputParams := joinSep " | " (staticRouteOutputObjects ++ dynamicRouteOutputObjects)
  let tsExpectError := if opts.testIgnoreComments = true then tsIgnoreComment else ""
  renderDeclarationFile tsExpectError hrefInputParams hrefOutputParams href

/-- Lines 71 and 79 of the source: the field name derived from a stored
parameter, its catch-all marker stripped. -/
def paramKey (param : String) : String :=
  if jsStartsWith param "..." = true then strDrop param 3 else param

/-- The catch-all test of lines 71-72 and 79-80 of the source: a stored
parameter is a catch-all exactly when it begins with `...`. -/
def paramIsCatchAll (param : String) : Bool :=
  jsStartsWith param "..."

/-- Spec-side record of one bracket-delimited segment: the parameter name
without brackets and without its catch-all marker, plus the catch-all flag
derived from a leading `...` inside the brackets. -/
def specParamRecord (segment : String) : String × Bool :=
  let inner := strDropRight (strDrop segment 1) 1
  if jsStartsWith inner "..." = true then (strDrop inner 3, true) else (inner, false)

/-- Spec-side parameter extraction: split the key on `/`, keep only the
fully bracket-delimited segments, and record each as name plus flag. -/
def specExtractParamRecords (key : String) : List (String × Bool) :=
  ((jsSplit '/' key).filter
      (fun segment => jsStartsWith segment "[" && jsEndsWith segment "]")).map
    specParamRecord

/-- Spec-side parameter list of a dynamic key: the left-to-right sequence of
the fully bracket-delimited `/`-separated segments, each with only the
outer brackets removed. -/
def specParams (key : String) : List String :=
  (jsSplit '/' key).filterMap
    (fun segment =>
      if jsStartsWith segment "[" && jsEndsWith segment "]" then
        some (strDropRight (strDrop segment 1) 1)
      else none)

/-- Spec-side groups-removed literal: drop every group segment, coerce the
empty result to `/`, and prefix `/` exactly when the result begins with the
`urlParams` placeholder token. -/
def specGroupsRemoved (key : String) : String :=
  let removed := replaceAllByGroup (fun _ => []) key
  let removed := if removed = "" then "/" else removed
  if jsStartsWith removed urlParams = true then "/" ++ removed else removed

/-- One group segment `/(label)` as a character list. -/
def groupSegL (label : List Char) : List Char :=
  '/' :: '(' :: (label ++ [')'])

/-- A key made of nothing but group segments. -/
def groupSegsJoin (labels : List (List Char)) : List Char :=
  (labels.map groupSegL).flatten

/-- All nodes reachable from the builder's outcome. -/
def allNodesOpt : Option RouteNode → List RouteNode
  | none => []
  | some n => allNodesGo n

/-- Strings with equal character data are equal. -/
theorem strExt {a b : String} (h : a.data = b.data) : a = b := by
  cases a
  cases b
  exact congrArg String.mk h

/-- Character data of an appended string. -/
theorem strDataAppend (a b : String) : (a ++ b).data = a.data ++ b.data := by
  cases a
  cases b
  rfl

/-- Filtering then mapping is a `filterMap`. -/
theorem filter_map_eq_filterMap {α β : Type} (p : α → Bool) (f : α → β) (l : List α) :
    (l.filter p).map f = l.filterMap (fun a => if p a = true then some (f a) else none) := by
  induction l with
  | nil => rfl
  | cons a t ih =>
    by_cases h : p a = true
    · simp [List.filter_cons, h, ih]
    · simp [List.filter_cons, h, ih]

/-- Splitting at a character that does not occur yields the whole list. -/
theorem splitOnChar_eq_single {sep : Char} {l : List Char} (h : sep ∉ l) :
    splitOnChar sep l = [l] := by
  induction l with
  | nil => rfl
  | cons c t ih =>
    have hc : ¬ c = sep := fun e => h (e ▸ List.mem_cons_self c t)
    have ht : sep ∉ t := fun m => h (List.mem_cons_of_mem c m)
    simp [splitOnChar, hc, ih ht]

/-- C1: for every dynamic route key, parameter extraction splits the
normalized key on `/`, keeps only the fully bracket-delimited segments,
strips the brackets, and records each parameter name without its catch-all
marker together with a catch-all flag derived from a leading `...` inside
the brackets; in particular `/blog/[...slug]` yields exactly the parameter
`slug` flagged catch-all and `/blog/[id]` the parameter `id`, not
catch-all. -/
theorem extraction_records_names_and_catchall_flags :
    (∀ key : String,
      (extractParams key).map (fun p => (paramKey p, paramIsCatchAll p)) =
        specExtractParamRecords key) ∧
    (extractParams "/blog/[...slug]").map (fun p => (paramKey p, paramIsCatchAll p)) =
      [("slug", true)] ∧
    (extractParams "/blog/[id]").map (fun p => (paramKey p, paramIsCatchAll p)) =
      [("id", false)] := by
  refine ⟨?_, by decide, by decide⟩
  intro key
  unfold extractParams specExtractParamRecords
  rw [List.map_map]
  have hfun :
      ((fun p => (paramKey p, paramIsCatchAll p)) ∘
        (fun segment => strDropRight (strDrop segment 1) 1)) = specParamRecord := by
    funext segment
    by_cases h : jsStartsWith (strDropRight (strDrop segment 1) 1) "..." = true
    · simp [Function.comp, specParamRecord, paramKey, paramIsCatchAll, h]
    · simp [Function.comp, specParamRecord, paramKey, paramIsCatchAll, h]
  rw [hfun]

/-- C2 counterexample: the single-label group `(ab)` is not left as a
literal by the synthesizer in non-permissive mode: its label text is longer
than one character, so the length test of the replacer fires and the
segment is replaced by a one-alternative enumerated placeholder. -/
theorem single_label_group_not_literal_cex :
    groupToType false "/(ab)" = "$\x7b\x27/(ab)\x27\x7d" ∧
    groupToType false "/(ab)" ≠ "/(ab)" ∧
    contextKeyToType "/(ab)" false = "`$\x7b\x27/(ab)\x27\x7d` | `/`" := by
  refine ⟨by decide, by decide, by decide⟩

/-- C2 amended: with permissive grouping disabled, a group segment is left
as a literal exactly when its inner text has length at most one; a
single-label group whose label is longer is replaced by the enumerated
placeholder holding that single alternative. -/
theorem single_label_group_literal_iff_short :
    (∀ m : String, (groupMatchInner m).length ≤ 1 → groupToType false m = m) ∧
    (∀ m : String, 1 < (groupMatchInner m).length → (',' ∈ (groupMatchInner m).data → False) →
      groupToType false m = "$\x7b\x27/(" ++ groupMatchInner m ++ ")\x27\x7d") := by
  constructor
  · intro m h
    have h' : (groupInnerL m.data).length ≤ 1 := h
    have hcond : ¬(1 < (groupInnerL m.data).length ∨ false = true) := by
      rintro (h1 | h2)
      · omega
      · exact Bool.false_ne_true h2
    unfold groupToType groupToTypeL
    rw [if_neg hcond]
  · intro m h hc
    have h' : 1 < (groupInnerL m.data).length := h
    have hc' : ',' ∉ groupInnerL m.data := hc
    unfold groupToType groupToTypeL groupRender
    rw [if_pos (Or.inl h'), splitOnChar_eq_single hc']
    apply strExt
    rw [strDataAppend, strDataAppend]
    simp [groupMatchInner, joinSepL, List.append_assoc]

/-- C2 witness: the amended statement applied at the one-character label `c`
and at the two-character label `ab`. -/
theorem single_label_group_literal_iff_short_witness :
    groupToType false "/(c)" = "/(c)" ∧
    groupToType false "/(ab)" = "$\x7b\x27/(" ++ groupMatchInner "/(ab)" ++ ")\x27\x7d" := by
  exact ⟨single_label_group_literal_iff_short.1 "/(c)" (by decide),
    single_label_group_literal_iff_short.2 "/(ab)" (by decide) (by decide)⟩

/-- C3: a group segment whose inner content is the two labels `a,b` is
replaced by the enumerated placeholder with alternative set exactly
`'/(a)' | '/(b)'` (plus the empty string under permissive grouping), and
the whole pattern is that expansion unioned with the groups-removed
literal form of the key. -/
theorem group_enumeration_two_labels :
    (∀ m : String, groupMatchInner m = "a,b" →
      groupToType false m = "$\x7b\x27/(a)\x27 | \x27/(b)\x27\x7d" ∧
      groupToType true m = "$\x7b\x27/(a)\x27 | \x27/(b)\x27 | \x27\x27\x7d") ∧
    contextKeyToType "/(a,b)" false = "`$\x7b\x27/(a)\x27 | \x27/(b)\x27\x7d` | `/`" ∧
    contextKeyToType "/(a,b)" true = "`$\x7b\x27/(a)\x27 | \x27/(b)\x27 | \x27\x27\x7d` | `/`" ∧
    contextKeyToType "/x/(a,b)/y" false =
      "`/x$\x7b\x27/(a)\x27 | \x27/(b)\x27\x7d/y` | `/x/y`" := by
  refine ⟨?_, by decide, by decide, by decide⟩
  intro m hm
  have hd : groupInnerL m.data = ['a', ',', 'b'] := congrArg String.data hm
  constructor
  · unfold groupToType groupToTypeL
    rw [hd, if_pos (Or.inl (by norm_num))]
    decide
  · unfold groupToType groupToTypeL
    rw [hd, if_pos (Or.inr rfl)]
    decide

/-- C3 witness: the general part of the enumeration statement applied at the
match text `/(a,b)`. -/
theorem group_enumeration_two_labels_witness :
    groupToType false "/(a,b)" = "$\x7b\x27/(a)\x27 | \x27/(b)\x27\x7d" ∧
    groupToType true "/(a,b)" = "$\x7b\x27/(a)\x27 | \x27/(b)\x27 | \x27\x27\x7d" := by
  exact group_enumeration_two_labels.1 "/(a,b)" (by decide)

/-- C10: the `urlParams` URL-suffix placeholder is appended only to a static
key's bare-string pattern before synthesis; the dynamic bare-string
patterns and the pathname patterns inside every input-params and
output-params object form are synthesized from the key alone.  On the
sample static key `/about` and dynamic template `/blog/[slug]` the suffix
occurs exactly once, in the static bare string. -/
theorem url_suffix_only_on_static_bare_strings :
    (∀ (b : Bool) (key : String),
      staticRouteStringEntry b key = contextKeyToType (key ++ urlParams) b) ∧
    (∀ (b : Bool) (key : String),
      staticRouteInputObjectEntry b key =
        "\x7b pathname: " ++ contextKeyToType key b ++ "; params?: Router.UnknownInputParams; \x7d") ∧
    (∀ (b : Bool) (key : String),
      staticRouteOutputObjectEntry b key =
        "\x7b pathname: " ++ contextKeyToType key b ++ "; params?: Router.UnknownOutputParams; \x7d") ∧
    (∀ (b : Bool) (template : String),
      dynamicRouteStringEntry b template =
        contextKeyToType (rewriteDynamicSegments template) b) ∧
    (∀ (b : Bool) (template : String) (ps : List String),
      dynamicRouteInputObjectEntry b template ps =
        "\x7b pathname: " ++ contextKeyToType template b ++
          ", params: Router.UnknownInputParams & \x7b " ++
          joinSep "" (ps.map inputParamField) ++ " \x7d \x7d") ∧
    (∀ (b : Bool) (template : String) (ps : List String),
      dynamicRouteOutputObjectEntry b template ps =
        "\x7b pathname: " ++ contextKeyToType template b ++
          ", params: Router.UnknownOutputParams & \x7b " ++
          joinSep "" (ps.map outputParamField) ++ " \x7d \x7d") ∧
    countOccs urlParams (staticRouteStringEntry false "/about") = 1 ∧
    countOccs urlParams (staticRouteInputObjectEntry false "/about") = 0 ∧
    countOccs urlParams (staticRouteOutputObjectEntry false "/about") = 0 ∧
    countOccs urlParams (dynamicRouteStringEntry false "/blog/[slug]") = 0 ∧
    countOccs urlParams (dynamicRouteInputObjectEntry false "/blog/[slug]" ["slug"]) = 0 ∧
    countOccs urlParams (dynamicRouteOutputObjectEntry false "/blog/[slug]" ["slug"]) = 0 := by
  exact ⟨fun _ _ => rfl, fun _ _ => rfl, fun _ _ => rfl, fun _ _ => rfl,
    fun _ _ _ => rfl, fun _ _ _ => rfl,
    by decide, by decide, by decide, by decide, by decide, by decide⟩

/-- C5: whenever a key contains a group segment, the synthesized pattern is
the union of the group-expanded expression and the groups-removed literal,
the latter coerced to `/` when removing every group empties the key and
prefixed with `/` exactly when it begins with the `urlParams` placeholder
token; the concrete key `/(a)/(b)` followed by the `urlParams` suffix
exercises the prefixing exception. -/
theorem group_union_decomposition :
    (∀ (key : String) (b : Bool), hasGroup key = true →
      contextKeyToType key b =
        "`" ++ replaceAllByGroup (groupToTypeL b) key ++ "` | `" ++
          specGroupsRemoved key ++ "`") ∧
    contextKeyToType ("/(a)/(b)" ++ urlParams) false =
      "`/(a)/(b)" ++ urlParams ++ "` | `/" ++ urlParams ++ "`" := by
  refine ⟨?_, by decide⟩
  intro key b h
  unfold contextKeyToType specGroupsRemoved
  rw [if_neg (by simp [h])]

/-- C5 witness: the decomposition applied at the concrete key `/(cd)` in
permissive mode. -/
theorem group_union_decomposition_witness :
    hasGroup "/(cd)" = true ∧
    contextKeyToType "/(cd)" true =
      "`" ++ replaceAllByGroup (groupToTypeL true) "/(cd)" ++ "` | `" ++
        specGroupsRemoved "/(cd)" ++ "`" := by
  exact ⟨by decide, group_union_decomposition.1 "/(cd)" true (by decide)⟩

/-- Membership after a `Set.prototype.add`. -/
theorem mem_setAdd {s : List String} {k x : String} (hx : x ∈ setAdd s k) :
    x ∈ s ∨ x = k := by
  unfold setAdd at hx
  by_cases h : s.contains k
  · rw [if_pos h] at hx
    exact Or.inl hx
  · rw [if_neg h] at hx
    rcases List.mem_append.mp hx with h1 | h1
    · exact Or.inl h1
    · exact Or.inr (List.mem_singleton.mp h1)

/-- Membership after a `Map.prototype.set`. -/
theorem mem_mapSet {m : List (String × List String)} {k : String} {v : List String}
    {p : String × List String} (hp : p ∈ mapSet m k v) : p ∈ m ∨ p = (k, v) := by
  unfold mapSet at hp
  by_cases h : m.any (fun q => q.1 == k)
  · rw [if_pos h] at hp
    rcases List.mem_map.mp hp with ⟨q, hq, he⟩
    by_cases hqk : q.1 == k
    · rw [if_pos hqk] at he
      exact Or.inr he.symm
    · rw [if_neg hqk] at he
      exact Or.inl (he ▸ hq)
  · rw [if_neg h] at hp
    rcases List.mem_append.mp hp with h1 | h1
    · exact Or.inl h1
    · exact Or.inr (List.mem_singleton.mp h1)

mutual

/-- Invariance of a static-key predicate and a dynamic-entry predicate
through the classification of one subtree: every key inserted comes from a
route node of the subtree. -/
theorem groupedInvGo (Ps : String → Prop) (Pd : String × List String → Prop)
    (n : RouteNode) (acc : GroupedContextKeys)
    (hn : ∀ m ∈ allNodesGo n, m.type = "route" →
      (m.dynamic = false → Ps (routeKeyOf m)) ∧
      (m.dynamic = true → Pd (routeKeyOf m, extractParams (routeKeyOf m))))
    (hs : ∀ k ∈ acc.static, Ps k) (hd : ∀ p ∈ acc.dynamic, Pd p) :
    (∀ k ∈ (groupRouteNodesGo n acc).static, Ps k) ∧
    (∀ p ∈ (groupRouteNodesGo n acc).dynamic, Pd p) := by
  match n with
  | RouteNode.mk ty route ck g dyn ch =>
    have hch : ∀ m ∈ allNodesList ch, m.type = "route" →
        (m.dynamic = false → Ps (routeKeyOf m)) ∧
        (m.dynamic = true → Pd (routeKeyOf m, extractParams (routeKeyOf m))) := by
      intro m hm
      exact hn m (by rw [allNodesGo]; exact List.mem_cons_of_mem _ hm)
    rw [groupRouteNodesGo]
    by_cases hty : ty ≠ "route"
    · rw [if_pos hty]
      by_cases hr : route = ""
      · rw [if_pos hr]
        exact groupedInvList Ps Pd ch acc hch hs hd
      · rw [if_neg hr]
        exact ⟨hs, hd⟩
    · rw [if_neg hty]
      have hself := hn (RouteNode.mk ty route ck g dyn ch)
        (by rw [allNodesGo]; exact List.mem_cons_self _ _)
        (by simpa [RouteNode.type] using hty)
      cases dyn with
      | false =>
        refine groupedInvList Ps Pd ch
          { acc with static := setAdd acc.static (deriveRouteKey route ck g) } hch ?_ ?_
        · intro k hk
          rcases mem_setAdd hk with h1 | h1
          · exact hs k h1
          · exact h1 ▸ hself.1 rfl
        · exact hd
      | true =>
        refine groupedInvList Ps Pd ch
          { acc with
            dynamic := mapSet acc.dynamic (deriveRouteKey route ck g)
              (extractParams (deriveRouteKey route ck g)) } hch ?_ ?_
        · exact hs
        · intro p hp
          rcases mem_mapSet hp with h1 | h1
          · exact hd p h1
          · exact h1 ▸ hself.2 rfl

/-- Invariance of the two predicates through the classification of a
forest. -/
theorem groupedInvList (Ps : String → Prop) (Pd : String × List String → Prop)
    (ns : List RouteNode) (acc : GroupedContextKeys)
    (hn : ∀ m ∈ allNodesList ns, m.type = "route" →
      (m.dynamic = false → Ps (routeKeyOf m)) ∧
      (m.dynamic = true → Pd (routeKeyOf m, extractParams (routeKeyOf m))))
    (hs : ∀ k ∈ acc.static, Ps k) (hd : ∀ p ∈ acc.dynamic, Pd p) :
    (∀ k ∈ (groupRouteNodesList ns acc).static, Ps k) ∧
    (∀ p ∈ (groupRouteNodesList ns acc).dynamic, Pd p) := by
  match ns with
  | [] =>
    rw [groupRouteNodesList]
    exact ⟨hs, hd⟩
  | n :: rest =>
    rw [groupRouteNodesList]
    have h1 := groupedInvGo Ps Pd n acc
      (fun m hm => hn m (by rw [allNodesList]; exact List.mem_append_left _ hm)) hs hd
    exact groupedInvList Ps Pd rest (groupRouteNodesGo n acc)
      (fun m hm => hn m (by rw [allNodesList]; exact List.mem_append_right _ hm))
      h1.1 h1.2

end

/-- C6: the generator never throws; when the external tree builder throws or
returns a null tree, classification returns the empty collection and the
rendered document carries only the two generic path kinds in its three
unions, with no custom static or dynamic entries. -/
theorem null_tree_generic_only_document :
    ∀ partialFlag ignoreFlag : Bool,
      groupRouteNodes none emptyGrouped = emptyGrouped ∧
      getTypedRoutesDeclarationFile none ⟨partialFlag, ignoreFlag⟩ =
        renderDeclarationFile (if ignoreFlag = true then tsIgnoreComment else "")
          "\x7b pathname: Router.RelativePathString, params?: Router.UnknownInputParams \x7d | \x7b pathname: Router.ExternalPathString, params?: Router.UnknownInputParams \x7d"
          "\x7b pathname: Router.RelativePathString, params?: Router.UnknownOutputParams \x7d | \x7b pathname: Router.ExternalPathString, params?: Router.UnknownOutputParams \x7d"
          "Router.RelativePathString | Router.ExternalPathString | \x7b pathname: Router.RelativePathString, params?: Router.UnknownInputParams \x7d | \x7b pathname: Router.ExternalPathString, params?: Router.UnknownInputParams \x7d" :=
  fun _ _ => ⟨rfl, rfl⟩

/-- C7 counterexample: a tree holding two route nodes with the same
normalized key `/x` but opposite dynamic flags puts `/x` into both
containers. -/
theorem static_dynamic_overlap_cex :
    "/x" ∈ (groupRouteNodes
      (some (RouteNode.mk "route" "x" "" true true [RouteNode.mk "route" "x" "" true false []]))
      emptyGrouped).static ∧
    "/x" ∈ ((groupRouteNodes
      (some (RouteNode.mk "route" "x" "" true true [RouteNode.mk "route" "x" "" true false []]))
      emptyGrouped).dynamic.map Prod.fst) := by
  refine ⟨by decide, by decide⟩

/-- C7 amended: whenever the dynamic flag of every route node of the tree is
a function of its normalized key (so any two route nodes with equal keys
agree on the flag), classification never records a key in both the static
and the dynamic container. -/
theorem static_dynamic_partition_of_flag_function (f : String → Bool) (t : Option RouteNode)
    (hf : ∀ m ∈ allNodesOpt t, m.type = "route" → m.dynamic = f (routeKeyOf m)) :
    ∀ k : String, ¬(k ∈ (groupRouteNodes t emptyGrouped).static ∧
      k ∈ (groupRouteNodes t emptyGrouped).dynamic.map Prod.fst) := by
  cases t with
  | none =>
    intro k hk
    exact absurd hk.1 (List.not_mem_nil k)
  | some n =>
    have hinv := groupedInvGo (fun k => f k = false) (fun p => f p.1 = true) n emptyGrouped
      (by
        intro m hm hr
        have hflag := hf m hm hr
        constructor
        · intro hfalse
          rw [← hflag, hfalse]
        · intro htrue
          show f (routeKeyOf m) = true
          rw [← hflag, htrue])
      (fun k hk => absurd hk (List.not_mem_nil k))
      (fun p hp => absurd hp (List.not_mem_nil p))
    intro k hk
    have h1 : f k = false := hinv.1 k hk.1
    rcases List.mem_map.mp hk.2 with ⟨p, hp, he⟩
    have h2 : f p.1 = true := hinv.2 p hp
    rw [show p.1 = k from he] at h2
    rw [h1] at h2
    exact Bool.false_ne_true h2

/-- C7 witness: the partition applied to a two-route tree whose flags are
the indicator of keys under `/blog`, at the key `/blog/[id]`. -/
theorem static_dynamic_partition_of_flag_function_witness :
    (allNodesOpt (some (RouteNode.mk "route" "" "./a.tsx" false false
        [RouteNode.mk "route" "" "./blog/[id].tsx" false true []]))).all
      (fun m => (m.type != "route") || (m.dynamic == jsStartsWith (routeKeyOf m) "/blog")) =
        true ∧
    ¬("/blog/[id]" ∈ (groupRouteNodes (some (RouteNode.mk "route" "" "./a.tsx" false false
        [RouteNode.mk "route" "" "./blog/[id].tsx" false true []])) emptyGrouped).static ∧
      "/blog/[id]" ∈ (groupRouteNodes (some (RouteNode.mk "route" "" "./a.tsx" false false
        [RouteNode.mk "route" "" "./blog/[id].tsx" false true []]))
          emptyGrouped).dynamic.map Prod.fst) := by
  refine ⟨by decide, ?_⟩
  exact static_dynamic_partition_of_flag_function (fun k => jsStartsWith k "/blog")
    (some (RouteNode.mk "route" "" "./a.tsx" false false
      [RouteNode.mk "route" "" "./blog/[id].tsx" false true []]))
    (by decide) "/blog/[id]"

/-- After the leading-slash fix and backslash normalization a key always
starts with `/`. -/
theorem startsSlash_after_fix (s : String) :
    jsStartsWith (String.mk ((if jsStartsWith s "/" = true then s else "/" ++ s).data.map
      (fun c => if c = '\\' then '/' else c))) "/" = true := by
  have hslash : ("/" : String).data = ['/'] := rfl
  by_cases h : jsStartsWith s "/" = true
  · rw [if_pos h]
    unfold jsStartsWith at h ⊢
    rw [hslash] at h ⊢
    cases hd : s.data with
    | nil =>
      rw [hd] at h
      simp [List.isPrefixOf] at h
    | cons a t =>
      rw [hd] at h
      have ha : a = '/' := by
        simp [List.isPrefixOf] at h
        exact h.symm
      simp [List.isPrefixOf, ha]
  · rw [if_neg h]
    unfold jsStartsWith
    rw [strDataAppend, hslash]
    simp [List.isPrefixOf]

/-- Every normalized key produced by the classifier starts with `/`. -/
theorem deriveRouteKey_starts_slash (r c : String) (g : Bool) :
    jsStartsWith (deriveRouteKey r c g) "/" = true := by
  unfold deriveRouteKey
  exact startsSlash_after_fix _

/-- C8 counterexample: a generated route node whose raw route is `//a` is
recorded under the key `//a`, which starts with a doubled `//`. -/
theorem doubled_slash_key_cex :
    (groupRouteNodes (some (RouteNode.mk "route" "//a" "" true false [])) emptyGrouped).static
      = ["//a"] ∧
    jsStartsWith "//a" "//" = true := by
  refine ⟨by decide, by decide⟩

/-- C8 amended: every normalized key recorded in either container starts
with `/` (the empty key is coerced to `/` before the leading-slash check,
so the root key is exactly `/` and not `//`), and the contextKey
`./index.tsx` normalizes to exactly `/`; a doubled `//` can still occur
when the node's raw route or cleaned contextKey itself begins with a
doubled or backslashed separator. -/
theorem recorded_keys_start_with_slash :
    (∀ t : Option RouteNode,
      (∀ k ∈ (groupRouteNodes t emptyGrouped).static, jsStartsWith k "/" = true) ∧
      (∀ p ∈ (groupRouteNodes t emptyGrouped).dynamic, jsStartsWith p.1 "/" = true)) ∧
    (groupRouteNodes (some (RouteNode.mk "route" "" "./index.tsx" false false []))
      emptyGrouped).static = ["/"] := by
  refine ⟨?_, by decide⟩
  intro t
  cases t with
  | none =>
    exact ⟨fun k hk => absurd hk (List.not_mem_nil k),
      fun p hp => absurd hp (List.not_mem_nil p)⟩
  | some n =>
    exact groupedInvGo (fun k => jsStartsWith k "/" = true)
      (fun p => jsStartsWith p.1 "/" = true) n emptyGrouped
      (fun m _ _ =>
        ⟨fun _ => deriveRouteKey_starts_slash m.route m.contextKey m.generated,
         fun _ => deriveRouteKey_starts_slash m.route m.contextKey m.generated⟩)
      (fun k hk => absurd hk (List.not_mem_nil k))
      (fun p hp => absurd hp (List.not_mem_nil p))

/-- C8 witness: the leading-slash invariant applied to the root-index tree
at its single recorded key `/`. -/
theorem recorded_keys_start_with_slash_witness :
    "/" ∈ (groupRouteNodes (some (RouteNode.mk "route" "" "./index.tsx" false false []))
      emptyGrouped).static ∧
    jsStartsWith "/" "/" = true := by
  refine ⟨by decide, ?_⟩
  exact (recorded_keys_start_with_slash.1
    (some (RouteNode.mk "route" "" "./index.tsx" false false []))).1 "/" (by decide)

/-- C9: every entry of the dynamic container pairs a key with exactly the
left-to-right sequence of its fully bracket-delimited `/`-separated
segments, each with only the outer brackets removed; a node flagged
dynamic whose key has no bracket-delimited segment is therefore recorded
with an empty parameter list rather than rejected. -/
theorem dynamic_params_match_bracket_segments :
    (∀ t : Option RouteNode, ∀ p ∈ (groupRouteNodes t emptyGrouped).dynamic,
      p.2 = extractParams p.1) ∧
    (∀ key : String, extractParams key = specParams key) ∧
    (groupRouteNodes (some (RouteNode.mk "route" "plain" "" true true [])) emptyGrouped).dynamic
      = [("/plain", [])] := by
  refine ⟨?_, ?_, by decide⟩
  · intro t
    cases t with
    | none => exact fun p hp => absurd hp (List.not_mem_nil p)
    | some n =>
      exact (groupedInvGo (fun _ => True) (fun p => p.2 = extractParams p.1) n emptyGrouped
        (fun _ _ _ => ⟨fun _ => trivial, fun _ => rfl⟩)
        (fun _ _ => trivial)
        (fun p hp => absurd hp (List.not_mem_nil p))).2
  · intro key
    unfold extractParams specParams
    exact filter_map_eq_filterMap _ _ _

/-- C9 witness: the dynamic-entry characterization applied to the
`./blog/[id].tsx` tree at its single entry. -/
theorem dynamic_params_match_bracket_segments_witness :
    ("/blog/[id]", ["id"]) ∈ (groupRouteNodes
      (some (RouteNode.mk "route" "" "./blog/[id].tsx" false true []))
      emptyGrouped).dynamic ∧
    ("/blog/[id]", ["id"]).2 = extractParams ("/blog/[id]", ["id"]).1 := by
  refine ⟨by decide, ?_⟩
  exact dynamic_params_match_bracket_segments.1
    (some (RouteNode.mk "route" "" "./blog/[id].tsx" false true []))
    ("/blog/[id]", ["id"]) (by decide)

/-- Pointwise-equal functions map lists equally. -/
theorem mapCongrMem {α β : Type} (l : List α) (f g : α → β) (h : ∀ x ∈ l, f x = g x) :
    l.map f = l.map g := by
  induction l with
  | nil => rfl
  | cons a t ih =>
    rw [List.map_cons, List.map_cons, h a (List.mem_cons_self a t),
      ih (fun x hx => h x (List.mem_cons_of_mem a hx))]

/-- Flattening copies of the empty list yields the empty list. -/
theorem flatten_map_nil {α : Type} (ls : List α) :
    (ls.map (fun _ => ([] : List Char))).flatten = [] := by
  induction ls with
  | nil => rfl
  | cons a t ih => simp [ih]

/-- The lazy scan to the closing parenthesis stops exactly at the first one. -/
theorem findClose_label (l r : List Char) (hl : ∀ c ∈ l, c ≠ ')' ∧ jsDot c = true) :
    findClose ')' (l ++ ')' :: r) = some (l, r) := by
  induction l with
  | nil => simp [findClose]
  | cons c t ih =>
    have hc := hl c (List.mem_cons_self c t)
    have ih' := ih (fun x hx => hl x (List.mem_cons_of_mem c hx))
    rw [List.cons_append]
    simp [findClose, hc.1, hc.2, ih']

/-- The `GROUP` regex matches one whole `/(label)` segment at the head of
the input when the label contains no closing parenthesis. -/
theorem matchGroupHere_seg (b : Bool) (l r : List Char)
    (hl : ∀ c ∈ l, c ≠ ')' ∧ jsDot c = true) :
    matchGroupHere b ('/' :: '(' :: (l ++ ')' :: r)) =
      some ('/' :: '(' :: (l ++ [')']), r) := by
  have hfc := findClose_label l r hl
  unfold matchGroupHere caretBranch slashBranch
  cases b with
  | false => simp [hfc]
  | true => simp [hfc]

/-- A key made of group segments decomposes as its head segment before the
remaining segments. -/
theorem groupSegsJoin_cons (l : List Char) (ls : List (List Char)) :
    groupSegsJoin (l :: ls) = '/' :: '(' :: (l ++ ')' :: groupSegsJoin ls) := by
  simp [groupSegsJoin, groupSegL, List.append_assoc]

/-- The global scan over a key made solely of group segments replaces each
segment by the replacer's image of it. -/
theorem replaceScan_groupSegsJoin (f : List Char → List Char) (labels : List (List Char))
    (hlab : ∀ l ∈ labels, ∀ c ∈ l, c ≠ ')' ∧ jsDot c = true) :
    ∀ (fuel : Nat) (b : Bool), (groupSegsJoin labels).length ≤ fuel →
      replaceScan matchGroupHere f fuel b (groupSegsJoin labels) =
        (labels.map (fun l => f (groupSegL l))).flatten := by
  induction labels with
  | nil =>
    intro fuel b _
    cases fuel with
    | zero => rfl
    | succ n => rfl
  | cons l ls ih =>
    intro fuel b hfuel
    rw [groupSegsJoin_cons] at hfuel ⊢
    cases fuel with
    | zero => simp at hfuel
    | succ n =>
      rw [replaceScan]
      rw [matchGroupHere_seg b l (groupSegsJoin ls) (hlab l (List.mem_cons_self _ _))]
      have hfuel' : (groupSegsJoin ls).length ≤ n := by
        simp [List.length_append] at hfuel
        omega
      show f ('/' :: '(' :: (l ++ [')'])) ++
          replaceScan matchGroupHere f n false (groupSegsJoin ls) =
        (List.map (fun x => f (groupSegL x)) (l :: ls)).flatten
      rw [ih (fun x hx => hlab x (List.mem_cons_of_mem _ hx)) n false hfuel']
      simp [groupSegL]

/-- The inner text of a rendered group segment is its label. -/
theorem groupInnerL_groupSegL (l : List Char) : groupInnerL (groupSegL l) = l := by
  show (l ++ [')']).take ((l ++ [')']).length - 1) = l
  rw [List.length_append]
  simp [List.take_left]

/-- The replacer leaves a group segment with a short label untouched in
non-permissive mode. -/
theorem groupToTypeL_shortSeg (l : List Char) (hlen : l.length ≤ 1) :
    groupToTypeL false (groupSegL l) = groupSegL l := by
  unfold groupToTypeL
  rw [groupInnerL_groupSegL]
  rw [if_neg]
  rintro (h1 | h2)
  · omega
  · exact Bool.false_ne_true h2

/-- A key made of group segments is recognized as holding a group. -/
theorem hasGroup_groupSegsJoin (l : List Char) (ls : List (List Char))
    (hl : ∀ c ∈ l, c ≠ ')' ∧ jsDot c = true) :
    hasGroup (String.mk (groupSegsJoin (l :: ls))) = true := by
  unfold hasGroup
  rw [show (String.mk (groupSegsJoin (l :: ls))).data = groupSegsJoin (l :: ls) from rfl,
    groupSegsJoin_cons]
  rw [hasGroupMatch]
  rw [matchGroupHere_seg true l _ hl]
  simp

/-- C4 counterexample: the key `/(a)`, a single single-label group, does not
synthesize to exactly one literal pattern: the groups-removed alternative
`/` is always added. -/
theorem single_label_groups_key_two_patterns_cex :
    contextKeyToType "/(a)" false = "`/(a)` | `/`" ∧
    contextKeyToType "/(a)" false ≠ "`/(a)`" := by
  refine ⟨by decide, by decide⟩

/-- C4 amended: a key consisting solely of group segments whose inner texts
have length at most one (so in particular single-label groups with one-character
labels) synthesizes, in non-permissive mode, to the union of exactly two
patterns: the original key literal with its parentheses-wrapped groups
intact, and the root literal `/` obtained by removing every group. -/
theorem single_label_groups_key_union_with_root :
    ∀ labels : List (List Char), labels ≠ [] →
      (∀ l ∈ labels, l.length ≤ 1 ∧ ∀ c ∈ l, c ≠ ')' ∧ jsDot c = true) →
      contextKeyToType (String.mk (groupSegsJoin labels)) false =
        "`" ++ String.mk (groupSegsJoin labels) ++ "` | `/`" := by
  intro labels hne hlab
  match labels, hne with
  | l :: ls, _ =>
    have hchars : ∀ x ∈ l :: ls, ∀ c ∈ x, c ≠ ')' ∧ jsDot c = true :=
      fun x hx => (hlab x hx).2
    have hg : hasGroup (String.mk (groupSegsJoin (l :: ls))) = true :=
      hasGroup_groupSegsJoin l ls (hchars l (List.mem_cons_self _ _))
    have hwith :
        replaceAllByGroup (groupToTypeL false) (String.mk (groupSegsJoin (l :: ls))) =
          String.mk (groupSegsJoin (l :: ls)) := by
      unfold replaceAllByGroup
      rw [show (String.mk (groupSegsJoin (l :: ls))).data = groupSegsJoin (l :: ls) from rfl]
      rw [replaceScan_groupSegsJoin (groupToTypeL false) (l :: ls) hchars _ true (le_refl _)]
      rw [mapCongrMem (l :: ls) _ groupSegL
        (fun x hx => groupToTypeL_shortSeg x (hlab x hx).1)]
      rfl
    have hwithout :
        replaceAllByGroup (fun _ => []) (String.mk (groupSegsJoin (l :: ls))) = "" := by
      unfold replaceAllByGroup
      rw [show (String.mk (groupSegsJoin (l :: ls))).data = groupSegsJoin (l :: ls) from rfl]
      rw [replaceScan_groupSegsJoin (fun _ => []) (l :: ls) hchars _ true (le_refl _)]
      rw [flatten_map_nil]
    unfold contextKeyToType
    rw [if_neg (by simp [hg])]
    rw [hwith, hwithout]
    apply strExt
    simp [strDataAppend, List.append_assoc,
      show jsStartsWith "/" urlParams = false from by decide]

/-- C4 witness: the amended statement applied to the two-segment key
`/(a)/(b)`. -/
theorem single_label_groups_key_union_with_root_witness :
    contextKeyToType "/(a)/(b)" false =
      "`" ++ String.mk (groupSegsJoin [['a'], ['b']]) ++ "` | `/`" := by
  exact single_label_groups_key_union_with_root [['a'], ['b']] (by decide) (by decide)
